import Mathlib

/-!
Verification of the feature-composition engine of a dev-container CLI.

The TypeScript sources are embedded shallowly:

* `src/spec-configuration/merge.ts` — configuration document merging
  (`ApplyMergeStrategyToObjects`, `ApplyMergeStrategyToDocuments`,
  `GetBehaviorTypeOrDefault`, `CheckValidityAndReturnUnionArray`).
* `src/spec-node/containerFeatures.ts` — build-recipe synthesis and the
  builder invocation (`generateContainerEnvs`, `getFeatureBuildStages`,
  `getCopyFeatureBuildStages`, `getFeatureEnvVariables`, `getFeatureSafeId`,
  `extendImage` / `getContainerFeaturesBuildInfo` argv construction).
* the `features test` command entry point (`doFeaturesTestCommand`).
* the feature identifier parser `parseFeatureIdentifier`, whose
  implementation file is not part of the sources at hand; it is modelled
  from the specification and checked against the offline unit tests.

JavaScript dynamic values are modelled by the inductive `JSValue`
(`undefined`, numbers, strings, arrays, objects); JavaScript strings that
are processed character by character are modelled as `List Char`.
-/

/-- A JavaScript value as manipulated by the merge module: `undefined`,
a number, a string, an array, or an object (an insertion-ordered list of
key/value fields). -/
inductive JSValue where
  | undef : JSValue
  | num (n : Int) : JSValue
  | str (s : String) : JSValue
  | arr (elems : List JSValue) : JSValue
  | obj (fields : List (String × JSValue)) : JSValue

mutual

/-- Structural equality of `JSValue`s, mirroring JavaScript `SameValueZero`
on primitives. (JavaScript `Set` compares object and array ELEMENTS by
reference; for the primitive-valued configuration entries the merge module
handles, reference equality and structural equality agree.) -/
def JSValue.beq : JSValue → JSValue → Bool
  | .undef, .undef => true
  | .num a, .num b => a == b
  | .str a, .str b => a == b
  | .arr as, .arr bs => JSValue.beqList as bs
  | .obj fs, .obj gs => JSValue.beqFields fs gs
  | _, _ => false

/-- Pointwise `JSValue.beq` on arrays. -/
def JSValue.beqList : List JSValue → List JSValue → Bool
  | [], [] => true
  | a :: as, b :: bs => JSValue.beq a b && JSValue.beqList as bs
  | _, _ => false

/-- Pointwise `JSValue.beq` on object field lists. -/
def JSValue.beqFields : List (String × JSValue) → List (String × JSValue) → Bool
  | [], [] => true
  | (k1, v1) :: fs, (k2, v2) :: gs => k1 == k2 && JSValue.beq v1 v2 && JSValue.beqFields fs gs
  | _, _ => false

end

mutual

/-- `JSValue.beq` is sound for propositional equality. -/
def JSValue.eq_of_beq : ∀ (a b : JSValue), JSValue.beq a b = true → a = b
  | .undef, .undef, _ => rfl
  | .num a, .num b, h => by rw [show a = b by simpa [JSValue.beq] using h]
  | .str a, .str b, h => by rw [show a = b by simpa [JSValue.beq] using h]
  | .arr as, .arr bs, h => by rw [JSValue.eqList_of_beqList as bs (by simpa [JSValue.beq] using h)]
  | .obj fs, .obj gs, h => by rw [JSValue.eqFields_of_beqFields fs gs (by simpa [JSValue.beq] using h)]
  | .undef, .num _, h => nomatch h
  | .undef, .str _, h => nomatch h
  | .undef, .arr _, h => nomatch h
  | .undef, .obj _, h => nomatch h
  | .num _, .undef, h => nomatch h
  | .num _, .str _, h => nomatch h
  | .num _, .arr _, h => nomatch h
  | .num _, .obj _, h => nomatch h
  | .str _, .undef, h => nomatch h
  | .str _, .num _, h => nomatch h
  | .str _, .arr _, h => nomatch h
  | .str _, .obj _, h => nomatch h
  | .arr _, .undef, h => nomatch h
  | .arr _, .num _, h => nomatch h
  | .arr _, .str _, h => nomatch h
  | .arr _, .obj _, h => nomatch h
  | .obj _, .undef, h => nomatch h
  | .obj _, .num _, h => nomatch h
  | .obj _, .str _, h => nomatch h
  | .obj _, .arr _, h => nomatch h

/-- `JSValue.beqList` is sound for propositional equality. -/
def JSValue.eqList_of_beqList : ∀ (as bs : List JSValue), JSValue.beqList as bs = true → as = bs
  | [], [], _ => rfl
  | a :: as, b :: bs, h => by
    have h2 : JSValue.beq a b = true ∧ JSValue.beqList as bs = true := by
      simpa [JSValue.beqList, Bool.and_eq_true] using h
    rw [JSValue.eq_of_beq a b h2.1, JSValue.eqList_of_beqList as bs h2.2]
  | [], _ :: _, h => nomatch h
  | _ :: _, [], h => nomatch h

/-- `JSValue.beqFields` is sound for propositional equality. -/
def JSValue.eqFields_of_beqFields :
    ∀ (fs gs : List (String × JSValue)), JSValue.beqFields fs gs = true → fs = gs
  | [], [], _ => rfl
  | (k1, v1) :: fs, (k2, v2) :: gs, h => by
    have h2 : (k1 = k2 ∧ JSValue.beq v1 v2 = true) ∧ JSValue.beqFields fs gs = true := by
      simpa [JSValue.beqFields, Bool.and_eq_true, and_assoc] using h
    rw [h2.1.1, JSValue.eq_of_beq v1 v2 h2.1.2, JSValue.eqFields_of_beqFields fs gs h2.2]
  | [], _ :: _, h => nomatch h
  | _ :: _, [], h => nomatch h

end

mutual

/-- `JSValue.beq` is reflexive. -/
def JSValue.beq_refl : ∀ (a : JSValue), JSValue.beq a a = true
  | .undef => rfl
  | .num a => by simp [JSValue.beq]
  | .str a => by simp [JSValue.beq]
  | .arr as => by simpa [JSValue.beq] using JSValue.beqList_refl as
  | .obj fs => by simpa [JSValue.beq] using JSValue.beqFields_refl fs

/-- `JSValue.beqList` is reflexive. -/
def JSValue.beqList_refl : ∀ (as : List JSValue), JSValue.beqList as as = true
  | [] => rfl
  | a :: as => by
    simp only [JSValue.beqList, Bool.and_eq_true]
    exact ⟨JSValue.beq_refl a, JSValue.beqList_refl as⟩

/-- `JSValue.beqFields` is reflexive. -/
def JSValue.beqFields_refl : ∀ (fs : List (String × JSValue)), JSValue.beqFields fs fs = true
  | [] => rfl
  | (k, v) :: fs => by
    simp only [JSValue.beqFields, Bool.and_eq_true, beq_self_eq_true, true_and]
    exact ⟨JSValue.beq_refl v, JSValue.beqFields_refl fs⟩

end

instance : DecidableEq JSValue := fun a b =>
  decidable_of_iff (JSValue.beq a b = true)
    ⟨JSValue.eq_of_beq a b, fun h => h ▸ JSValue.beq_refl a⟩

/-- One step of JavaScript `Set` insertion: append the element unless it is
already present. -/
def jsSetInsert {α : Type} [DecidableEq α] (acc : List α) (x : α) : List α :=
  if x ∈ acc then acc else acc ++ [x]

/-- `[... new Set(xs)]`: deduplicate a list keeping the first occurrence of
each element, preserving insertion order. -/
def jsSetDedup {α : Type} [DecidableEq α] (xs : List α) : List α :=
  xs.foldl jsSetInsert []

/-- `Array.isArray`. -/
def JSValue.isArray : JSValue → Bool
  | .arr _ => true
  | _ => false

/-- The merge behaviors of `ExtendBehavior` (imported by `merge.ts` from
`configuration.ts`; the spec defines the enum as REPLACE, SKIP, MERGE). -/
inductive ExtendBehavior where
  | REPLACE : ExtendBehavior
  | SKIP : ExtendBehavior
  | MERGE : ExtendBehavior
deriving DecidableEq

/-- The error thrown by `CheckValidityAndReturnUnionArray` when an input is
not an array (the spec calls it `MergeTypeError`). -/
inductive MergeError where
  | typeError : MergeError
deriving DecidableEq

/-- Decidable equality for `Except` results. -/
def exceptDecEq {ε α : Type} [DecidableEq ε] [DecidableEq α] :
    (a b : Except ε α) → Decidable (a = b)
  | .error e, .error f =>
    if h : e = f then isTrue (by rw [h]) else isFalse (fun hc => by cases hc; exact h rfl)
  | .ok x, .ok y =>
    if h : x = y then isTrue (by rw [h]) else isFalse (fun hc => by cases hc; exact h rfl)
  | .error _, .ok _ => isFalse (fun h => Except.noConfusion h)
  | .ok _, .error _ => isFalse (fun h => Except.noConfusion h)

instance {ε α : Type} [DecidableEq ε] [DecidableEq α] : DecidableEq (Except ε α) :=
  exceptDecEq

/-- A configuration document: a JavaScript object, i.e. an insertion-ordered
list of key/value pairs with unique keys. -/
abbrev JSDocument : Type := List (String × JSValue)

/-- The key→behavior table consulted by the merge. `merge.ts` obtains it
from `buildExtendBehaviorTable()` (in `configuration.ts`, whose body is not
among the sources at hand); the table is therefore a parameter here. A key
absent from the table maps to `none`. -/
def ExtendBehaviorTable : Type := String → Option ExtendBehavior

/-- `document[key]` on a JavaScript object: the stored value, or `undefined`
when the key is absent. -/
def jsGet (doc : JSDocument) (key : String) : JSValue :=
  ((List.lookup key doc).getD .undef)

/-- `merge.ts` line 54: `undefined` defaults to `REPLACE`. -/
def GetBehaviorTypeOrDefault : Option ExtendBehavior → ExtendBehavior
  | none => .REPLACE
  | some b => b

/-- `merge.ts` line 65: if both inputs are arrays, return
`[... new Set([...Object.values(obj1), ...Object.values(obj2)])]`, else
throw. (`Object.values` of an array is its element list.) -/
def CheckValidityAndReturnUnionArray : JSValue → JSValue → Except MergeError JSValue
  | .arr xs, .arr ys => .ok (.arr (jsSetDedup (xs ++ ys)))
  | _, _ => .error .typeError

/-- `merge.ts` line 8: select `outputValue` by strategy, then return the
one-key wrapper object `\x7b[key]: outputValue\x7d`. -/
def ApplyMergeStrategyToObjects (key : String) (parentValue childValue : JSValue)
    (strategy : ExtendBehavior) : Except MergeError JSValue :=
  let outputValue : Except MergeError JSValue :=
    match strategy with
    | .REPLACE => .ok childValue
    | .SKIP => .ok parentValue
    | .MERGE => CheckValidityAndReturnUnionArray parentValue childValue
  outputValue.map (fun v => .obj [(key, v)])

/-- `merge.ts` line 30: `[... new Set([...Object.keys(parent), ...Object.keys(child)])]`. -/
def UnionListOfDocumentKeys (parentDocument childDocument : JSDocument) : List String :=
  jsSetDedup (parentDocument.map Prod.fst ++ childDocument.map Prod.fst)

/-- `merge.ts` line 28: for each key of the union of the two key sets, set
`ResultingJSONDocument[key]` to the object returned by
`ApplyMergeStrategyToObjects` (the whole wrapper object, as the source
does), with the behavior looked up in the table and defaulted. -/
def ApplyMergeStrategyToDocuments (table : ExtendBehaviorTable)
    (parentDocument childDocument : JSDocument) : Except MergeError JSDocument :=
  (UnionListOfDocumentKeys parentDocument childDocument).foldlM
    (fun acc key => do
      let merged ← ApplyMergeStrategyToObjects key
        (jsGet parentDocument key) (jsGet childDocument key)
        (GetBehaviorTypeOrDefault (table key))
      pure (acc ++ [(key, merged)]))
    ([] : JSDocument)

/-- JavaScript strings processed character by character are modelled as
character lists. -/
abbrev Str : Type := List Char

/-- The tagged `SourceInformation` union: where a feature set comes from.
The type is declared in `containerFeaturesConfiguration.ts` (not among the
sources at hand); the variants and fields follow the spec data model and the
offline unit tests. -/
inductive SourceInformation where
  | localCache : SourceInformation
  | githubRepo (owner repo : Str) (tag : Option Str) (isLatest : Bool)
      (apiUri unauthenticatedUri : Str) : SourceInformation
  | directTarball (tarballUri : Str) : SourceInformation
  | filePath (path : Str) (isRelative : Bool) : SourceInformation
deriving DecidableEq

/-- Keep alphanumeric characters, replace anything else by a dash. -/
def slugify (s : Str) : Str :=
  s.map (fun c => if c.isAlphanum then c else '-')

/-- Modelled from the spec: `getSourceInfoString` (implementation in
`containerFeaturesConfiguration.ts`, not among the sources at hand). The
spec fixes `local-cache` and `github-<owner>-<repo>-<tag|latest>` (the
offline unit tests confirm both); for the tarball and file-path variants it
only requires a deterministic URI/path-derived slug, modelled by `slugify`. -/
def getSourceInfoString : SourceInformation → Str
  | .localCache => "local-cache".toList
  | .githubRepo owner repo tag _ _ _ =>
      "github-".toList ++ owner ++ "-".toList ++ repo ++ "-".toList ++
        (match tag with
         | some t => t
         | none => "latest".toList)
  | .directTarball uri => slugify uri
  | .filePath p _ => slugify p

/-- Modelled from the spec: a feature value is either the selected scalar
(string or boolean) or a structured object of option-name→value. -/
inductive FeatureValue where
  | str (s : Str) : FeatureValue
  | boolean (b : Bool) : FeatureValue
  | obj (options : List (Str × Str)) : FeatureValue
deriving DecidableEq

/-- JavaScript truthiness of `f.value`: absent and the empty string and
`false` are falsy; any object (even empty) is truthy. -/
def jsTruthy : Option FeatureValue → Bool
  | none => false
  | some (.str s) => !s.isEmpty
  | some (.boolean b) => b
  | some (.obj _) => true

/-- Modelled from the spec: the `Feature` record fields read by
`containerFeatures.ts` (the full type lives in
`containerFeaturesConfiguration.ts`, not among the sources at hand). -/
structure Feature where
  id : Str
  value : Option FeatureValue
  included : Bool
  containerEnv : List (Str × Str)
  buildArg : Option Str
deriving DecidableEq

/-- A feature set: all features sharing one source. -/
structure FeatureSet where
  sourceInformation : SourceInformation
  features : List Feature
  dstFolder : Str
deriving DecidableEq

/-- The features configuration handed to recipe synthesis. -/
structure FeaturesConfig where
  featureSets : List FeatureSet
  dstFolder : Str
deriving DecidableEq

/-- The filter `(includeAllConfiguredFeatures || f.included) && f.value`
used throughout `containerFeatures.ts`. The product-policy constant
`includeAllConfiguredFeatures` (from `spec-utils/product`, not among the
sources at hand) is passed as the parameter `incAll`. -/
def includedWithValue (incAll : Bool) (f : Feature) : Bool :=
  (incAll || f.included) && jsTruthy f.value

/-- One `ENV K=V` entry for one `containerEnv` pair. -/
def containerEnvLine (kv : Str × Str) : Str :=
  "ENV ".toList ++ kv.1 ++ "=".toList ++ kv.2

/-- The newline-joined `ENV` entries contributed by one feature set in
`generateContainerEnvs` (`containerFeatures.ts` lines 107-111): filter the
features, concatenate the per-feature `containerEnv` entries. -/
def envLinesOfSet (incAll : Bool) (fSet : FeatureSet) : List Str :=
  (fSet.features.filter (includedWithValue incAll)).flatMap
    (fun f => f.containerEnv.map containerEnvLine)

/-- `generateContainerEnvs` (`containerFeatures.ts` line 104): starting from
the empty string, append for each feature set its newline-joined `ENV`
entries (`result += ...join('\n')` — note: no separator between the
contributions of consecutive feature sets). -/
def generateContainerEnvs (incAll : Bool) (featuresConfig : FeaturesConfig) : Str :=
  featuresConfig.featureSets.foldl
    (fun result fSet => result ++ List.intercalate ("\n".toList) (envLinesOfSet incAll fSet))
    []

/-- The `hasAcquire`/`hasConfigure` flags probed per feature
(`buildStageScripts` in `containerFeatures.ts`). -/
structure BuildStageScripts where
  hasAcquire : Bool
  hasConfigure : Bool
deriving DecidableEq

/-- Per-feature-set map from feature id to its probed scripts, modelling
`Record<string, \x7b hasAcquire; hasConfigure \x7d | undefined>`. -/
abbrev ScriptsMap : Type := List (Str × BuildStageScripts)

/-- `buildStageScripts[i][f.id]?.hasAcquire` coerced to a boolean. -/
def hasAcquireScript (m : ScriptsMap) (fid : Str) : Bool :=
  ((List.lookup fid m).map BuildStageScripts.hasAcquire).getD false

/-- `buildStageScripts[i][f.id]?.hasConfigure` coerced to a boolean. -/
def hasConfigureScript (m : ScriptsMap) (fid : Str) : Bool :=
  ((List.lookup fid m).map BuildStageScripts.hasConfigure).getD false

/-- Models Node `path.posix.join` for the path shapes used by the recipe
synthesizer: drop empty parts, join with `/`, remove `.` segments and
duplicate slashes, keep a leading `/`. (`..` collapsing is not modelled; no
caller passes `..` segments.) -/
def posixJoin (parts : List Str) : Str :=
  match parts.filter (fun p => !p.isEmpty) with
  | [] => ['.']
  | ps =>
    let joined := List.intercalate ("/".toList) ps
    let segs := (List.splitOn '/' joined).filter (fun s => !s.isEmpty && !(s == ".".toList))
    (if joined.head? == some '/' then "/".toList else []) ++ List.intercalate ("/".toList) segs

/-- The filter of `getFeatureBuildStages` and `getCopyFeatureBuildStages`
(`containerFeatures.ts` lines 262 and 275):
`(includeAllConfiguredFeatures || f.included) && f.value && buildStageScripts[i][f.id]?.hasAcquire`. -/
def acquireFilter (incAll : Bool) (m : ScriptsMap) (f : Feature) : Bool :=
  includedWithValue incAll f && hasAcquireScript m f.id

/-- One feature build stage (`containerFeatures.ts` lines 263-266): a
`FROM ... as <source-info-string>_<id>` stage that copies the feature folder
and the shared `common` folder and runs `./bin/acquire`. -/
def buildStageStanza (contentSourceRootPath srcInfoStr fid : Str) : Str :=
  "FROM mcr.microsoft.com/vscode/devcontainers/base:0-focal as ".toList ++ srcInfoStr ++
    "_".toList ++ fid ++
  "\nCOPY --from=dev_containers_feature_content_source ".toList ++
    posixJoin [contentSourceRootPath, srcInfoStr, "features".toList, fid] ++ " ".toList ++
    posixJoin ["/tmp/build-features".toList, srcInfoStr, "features".toList, fid] ++
  "\nCOPY --from=dev_containers_feature_content_source ".toList ++
    posixJoin [contentSourceRootPath, srcInfoStr, "common".toList] ++ " ".toList ++
    posixJoin ["/tmp/build-features".toList, srcInfoStr, "common".toList] ++
  "\nRUN cd ".toList ++
    posixJoin ["/tmp/build-features".toList, srcInfoStr, "features".toList, fid] ++
    " && set -a && . ./devcontainer-features.env && set +a && ./bin/acquire".toList

/-- The list of build-stage stanzas of `getFeatureBuildStages`
(`containerFeatures.ts` lines 260-268) before the final `join('\n\n')`. -/
def getFeatureBuildStagesList (incAll : Bool) (featuresConfig : FeaturesConfig)
    (buildStageScripts : List ScriptsMap) (contentSourceRootPath : Str) : List Str :=
  (featuresConfig.featureSets.zip buildStageScripts).flatMap (fun p =>
    (p.1.features.filter (acquireFilter incAll p.2)).map (fun f =>
      buildStageStanza contentSourceRootPath (getSourceInfoString p.1.sourceInformation) f.id))

/-- `getFeatureBuildStages` (`containerFeatures.ts` line 259). -/
def getFeatureBuildStages (incAll : Bool) (featuresConfig : FeaturesConfig)
    (buildStageScripts : List ScriptsMap) (contentSourceRootPath : Str) : Str :=
  List.intercalate ("\n\n".toList)
    (getFeatureBuildStagesList incAll featuresConfig buildStageScripts contentSourceRootPath)

/-- The `COPY --from=<stage>` part of one copy stanza
(`containerFeatures.ts` line 278). -/
def copyStanzaBase (srcInfoStr fid : Str) : Str :=
  "COPY --from=".toList ++ srcInfoStr ++ "_".toList ++ fid ++ " ".toList ++
    posixJoin ["/usr/local/devcontainer-features".toList, srcInfoStr, fid] ++ " ".toList ++
    posixJoin ["/usr/local/devcontainer-features".toList, srcInfoStr, fid]

/-- The configure `RUN` appended to a copy stanza when the feature has a
configure script (`containerFeatures.ts` lines 278-279). -/
def configureRunStanza (srcInfoStr fid : Str) : Str :=
  "\nRUN cd ".toList ++
    posixJoin ["/tmp/build-features".toList, srcInfoStr, "features".toList, fid] ++
    " && set -a && . ./devcontainer-features.env && set +a && ./bin/configure".toList

/-- One copy stanza of `getCopyFeatureBuildStages`: the `COPY --from=` line
plus, iff the feature has a configure script, the configure `RUN`. -/
def copyFeatureStanza (m : ScriptsMap) (srcInfoStr : Str) (f : Feature) : Str :=
  copyStanzaBase srcInfoStr f.id ++
    (if hasConfigureScript m f.id then configureRunStanza srcInfoStr f.id else [])

/-- The list of copy stanzas of `getCopyFeatureBuildStages`
(`containerFeatures.ts` lines 272-283) before the final `join('\n\n')`. -/
def getCopyFeatureBuildStagesList (incAll : Bool) (featuresConfig : FeaturesConfig)
    (buildStageScripts : List ScriptsMap) : List Str :=
  (featuresConfig.featureSets.zip buildStageScripts).flatMap (fun p =>
    (p.1.features.filter (acquireFilter incAll p.2)).map (fun f =>
      copyFeatureStanza p.2 (getSourceInfoString p.1.sourceInformation) f))

/-- `getCopyFeatureBuildStages` (`containerFeatures.ts` line 272). -/
def getCopyFeatureBuildStages (incAll : Bool) (featuresConfig : FeaturesConfig)
    (buildStageScripts : List ScriptsMap) : Str :=
  List.intercalate ("\n\n".toList)
    (getCopyFeatureBuildStagesList incAll featuresConfig buildStageScripts)

/-- The qualifying (source-info string, feature, hasConfigure) triples, one
per feature that passes the acquire filter, in emission order. Both stanza
lists are images of this list. -/
def acquirePairs (incAll : Bool) (featuresConfig : FeaturesConfig)
    (buildStageScripts : List ScriptsMap) : List (Str × Feature × Bool) :=
  (featuresConfig.featureSets.zip buildStageScripts).flatMap (fun p =>
    (p.1.features.filter (acquireFilter incAll p.2)).map (fun f =>
      (getSourceInfoString p.1.sourceInformation, f, hasConfigureScript p.2 f.id)))

/-- Modelled from the spec: `getFeatureValueObject` (implementation in
`containerFeaturesConfiguration.ts`, not among the sources at hand): the
structured object of option-name→value when the feature value is such an
object, otherwise nothing. -/
def getFeatureValueObject (f : Feature) : Option (List (Str × Str)) :=
  match f.value with
  | some (.obj options) => some options
  | _ => none

/-- Modelled from the spec: `getFeatureMainValue` (implementation in
`containerFeaturesConfiguration.ts`, not among the sources at hand): the
scalar selected, stringified the JavaScript way. The spec fixes only the
scalar case; an object-valued feature is modelled as the truthiness string
`true`. -/
def getFeatureMainValue (f : Feature) : Str :=
  match f.value with
  | some (.str s) => s
  | some (.boolean b) => if b then "true".toList else "false".toList
  | some (.obj _) => "true".toList
  | none => "false".toList

/-- `getFeatureSafeId` (`containerFeatures.ts` lines 300-304): replace every
`/` and `-` in the feature id by `_`, then upper-case. -/
def getFeatureSafeId (f : Feature) : Str :=
  (f.id.map (fun c => if c = '/' || c = '-' then '_' else c)).map Char.toUpper

/-- `getFeatureEnvVariables` (`containerFeatures.ts` lines 285-298): if the
feature has a value object, one quoted `_BUILD_ARG_<SAFE_ID>_<OPT>="<value>"`
entry per option (option name upper-cased) followed by the presence flag
`_BUILD_ARG_<SAFE_ID>=true`; then, if the feature declares a legacy
`buildArg`, one `<buildArg>=<mainValue>` entry. -/
def getFeatureEnvVariables (f : Feature) : List Str :=
  let idSafe := getFeatureSafeId f
  let declaredVars : List Str :=
    match getFeatureValueObject f with
    | some values =>
      (values.map (fun kv =>
        "_BUILD_ARG_".toList ++ idSafe ++ "_".toList ++ kv.1.map Char.toUpper ++
          "=\"".toList ++ kv.2 ++ "\"".toList)) ++
      ["_BUILD_ARG_".toList ++ idSafe ++ "=true".toList]
    | none => []
  match f.buildArg with
  | some b => declaredVars ++ [b ++ "=".toList ++ getFeatureMainValue f]
  | none => declaredVars

/-- The fixed name of the legacy-backend throwaway content image
(`containerFeatures.ts` line 182). -/
def buildContentImageName : Str :=
  "dev_container_feature_content_temp".toList

/-- `containerFeatures.ts` line 186: the root under which feature content is
found while building — the injected build context in BuildKit mode, the
content image path in legacy mode. -/
def contentSourceRootPath (useBuildKit : Bool) : Str :=
  if useBuildKit then ".".toList else "/tmp/build-features/".toList

/-- The synthesized legacy content Dockerfile (`containerFeatures.ts` lines
225-228), byte for byte including the template-literal indentation. -/
def buildContentDockerfile : Str :=
  "\n\tFROM scratch\n\tCOPY . /tmp/build-features/\n\t".toList

/-- `containerFeatures.ts` line 255: in BuildKit mode one additional build
context `dev_containers_feature_content_source=<dstFolder>`, in legacy mode
none. -/
def buildKitContexts (useBuildKit : Bool) (dstFolder : Str) : List (Str × Str) :=
  if useBuildKit then [("dev_containers_feature_content_source".toList, dstFolder)] else []

/-- The build arguments returned by `getContainerFeaturesBuildInfo`
(`containerFeatures.ts` lines 250-254), in declaration order. -/
def featureBuildArgsList (baseName imageUser : Str) : List (Str × Str) :=
  [("_DEV_CONTAINERS_BASE_IMAGE".toList, baseName),
   ("_DEV_CONTAINERS_IMAGE_USER".toList, imageUser),
   ("_DEV_CONTAINERS_FEATURE_CONTENT_SOURCE".toList, buildContentImageName)]

/-- A `for..in` loop pushing `[flag, `${k}=${v}`]` per entry (used for
`--build-context` and `--build-arg` pairs). -/
def flagPairs (flag : Str) (kvs : List (Str × Str)) : List Str :=
  kvs.flatMap (fun kv => [flag, kv.1 ++ "=".toList ++ kv.2])

/-- The argv of the legacy content-image build (`containerFeatures.ts` lines
231-236): `build -t <contentImage> -f <dstFolder>/Dockerfile.buildContent
<dstFolder>`. -/
def buildContentArgs (dstFolder : Str) : List Str :=
  ["build".toList, "-t".toList, buildContentImageName, "-f".toList,
   posixJoin [dstFolder, "Dockerfile.buildContent".toList], dstFolder]

/-- The updated image name chosen by `extendImage` (line 47). -/
def updatedImageName (folderImageName imageName : Str) : Str :=
  (if folderImageName.isPrefixOf imageName then imageName else folderImageName) ++
    "-features".toList

/-- The guaranteed-empty build context directory (`extendImage` line 69):
`<tmpdir>/__dev-containers-build-empty`. -/
def emptyTempDir (tmpdir : Str) : Str :=
  posixJoin [tmpdir, "__dev-containers-build-empty".toList]

/-- The argv assembled by `extendImage` (lines 49-75) for the main build:
`buildx build --load` plus the `--build-context` pairs in BuildKit mode,
plain `build` otherwise; then the `--build-arg` pairs; then
`-t <updatedImageName> -f <dstFolder>/Dockerfile.extended <emptyTempDir>`. -/
def extendImageArgs (useBuildKit : Bool)
    (dstFolder baseName imageUser folderImageName imageName tmpdir : Str) : List Str :=
  (if useBuildKit then
    ["buildx".toList, "build".toList, "--load".toList] ++
      flagPairs ("--build-context".toList) (buildKitContexts useBuildKit dstFolder)
  else
    ["build".toList]) ++
  flagPairs ("--build-arg".toList) (featureBuildArgsList baseName imageUser) ++
  ["-t".toList, updatedImageName folderImageName imageName,
   "-f".toList, posixJoin [dstFolder, "Dockerfile.extended".toList],
   emptyTempDir tmpdir]

/-- The builder invocations performed for one extended-image build, in
order: in legacy mode `getContainerFeaturesBuildInfo` first builds the
content image (lines 224-245), then `extendImage` runs the main build; in
BuildKit mode only the main build runs. -/
def builderInvocations (useBuildKit : Bool)
    (dstFolder baseName imageUser folderImageName imageName tmpdir : Str) : List (List Str) :=
  (if useBuildKit then [] else [buildContentArgs dstFolder]) ++
    [extendImageArgs useBuildKit dstFolder baseName imageUser folderImageName imageName tmpdir]

/-- The paths of the files written while synthesizing the recipe: the
extended Dockerfile (`extendImage` lines 44-45), one
`devcontainer-features.env` per feature set plus one per acquire-style
feature (`getContainerFeaturesBuildInfo` lines 200-221), and in legacy mode
the content Dockerfile (lines 229-230). -/
def writtenFilePaths (useBuildKit incAll : Bool) (featuresConfig : FeaturesConfig)
    (buildStageScripts : List ScriptsMap) : List Str :=
  [posixJoin [featuresConfig.dstFolder, "Dockerfile.extended".toList]] ++
  (featuresConfig.featureSets.zip buildStageScripts).flatMap (fun p =>
    posixJoin [featuresConfig.dstFolder, getSourceInfoString p.1.sourceInformation,
      "devcontainer-features.env".toList] ::
    (p.1.features.filter (acquireFilter incAll p.2)).map (fun f =>
      posixJoin [featuresConfig.dstFolder, getSourceInfoString p.1.sourceInformation,
        "features".toList, f.id, "devcontainer-features.env".toList])) ++
  (if useBuildKit then []
   else [posixJoin [featuresConfig.dstFolder, "Dockerfile.buildContent".toList]])

/-- First character of a valid feature id: `[A-Za-z0-9_]`. -/
def validIdFirstChar (c : Char) : Bool :=
  c.isAlphanum || c = '_'

/-- Later characters of a valid feature id: `[A-Za-z0-9_\-]`. -/
def validIdChar (c : Char) : Bool :=
  validIdFirstChar c || c = '-'

/-- The valid-id charset of the spec: `[A-Za-z0-9_][A-Za-z0-9_\-]*`. -/
def isValidId : Str → Bool
  | [] => false
  | c :: cs => validIdFirstChar c && cs.all validIdChar

/-- Does `s` contain `pat` as a contiguous substring? -/
def containsSub (pat s : Str) : Bool :=
  s.tails.any (fun t => pat.isPrefixOf t)

/-- Split at the first occurrence of `sep`: the part before it and, when the
separator occurs, the whole remainder after it. -/
def breakAtFirst (sep : Char) (s : Str) : Str × Option Str :=
  match List.splitOn sep s with
  | [] => (s, none)
  | [x] => (x, none)
  | x :: rest => (x, some (List.intercalate [sep] rest))

/-- Modelled from the spec: the GitHub release-API URI — with a tag
`/releases/tags/<tag>`, without `/releases/latest` (confirmed by the
offline unit tests). -/
def githubApiUri (owner repo : Str) (tag : Option Str) : Str :=
  "https://api.github.com/repos/".toList ++ owner ++ "/".toList ++ repo ++
    (match tag with
     | some t => "/releases/tags/".toList ++ t
     | none => "/releases/latest".toList)

/-- Modelled from the spec: the unauthenticated tarball URI — with a tag
`/releases/download/<tag>/devcontainer-features.tgz`, without
`/releases/latest/download/devcontainer-features.tgz` (confirmed by the
offline unit tests). -/
def githubUnauthenticatedUri (owner repo : Str) (tag : Option Str) : Str :=
  "https://github.com/".toList ++ owner ++ "/".toList ++ repo ++
    (match tag with
     | some t => "/releases/download/".toList ++ t ++ "/devcontainer-features.tgz".toList
     | none => "/releases/latest/download/devcontainer-features.tgz".toList)

/-- Modelled from the spec, rule 1 of the identifier grammar: a string
containing `://` is a direct tarball iff it ends in `.tgz#<id>` with a valid
id; otherwise it is rejected. -/
def parseDirectTarball (s : Str) : Option (SourceInformation × Str) :=
  match List.splitOn '#' s with
  | [uri, fid] =>
    if isValidId fid && (".tgz".toList).isSuffixOf uri then
      some (.directTarball uri, fid)
    else none
  | _ => none

/-- Modelled from the spec, rule 2: a string beginning with `./`, `../` or
`/` is a file path; `isRelative` is true unless it is absolute, and the
trailing segment is the feature id. -/
def parseFilePath (s : Str) : Option (SourceInformation × Str) :=
  some (.filePath s (!(s.head? == some '/')), (List.splitOn '/' s).getLastD s)

/-- Modelled from the spec, rule 3: `<owner>/<repo>/<id>(@<tag>)?` with
exactly three slash-separated segments before any `@` and a valid `<id>`
is a GitHub repo source; `isLatest` holds iff no tag is given, and the two
URIs are built from owner, repo and tag. -/
def parseGitHubRepo (s : Str) : Option (SourceInformation × Str) :=
  let br := breakAtFirst '@' s
  match List.splitOn '/' br.1 with
  | [owner, repo, fid] =>
    if isValidId fid then
      match br.2 with
      | none =>
        some (.githubRepo owner repo none true
          (githubApiUri owner repo none) (githubUnauthenticatedUri owner repo none), fid)
      | some tag =>
        some (.githubRepo owner repo (some tag) false
          (githubApiUri owner repo (some tag)) (githubUnauthenticatedUri owner repo (some tag)), fid)
    else none
  | _ => none

/-- Modelled from the spec: `parseFeatureIdentifier` (implementation in
`containerFeaturesConfiguration.ts`, not among the sources at hand),
evaluating the grammar rules in order: direct tarball (when the string
contains `://`), file path, GitHub repo, bare local-cache id, reject. -/
def parseFeatureIdentifier (s : Str) : Option (SourceInformation × Str) :=
  if containsSub ("://".toList) s then
    parseDirectTarball s
  else if ("./".toList).isPrefixOf s || ("../".toList).isPrefixOf s || s.head? == some '/' then
    parseFilePath s
  else
    match parseGitHubRepo s with
    | some r => some r
    | none => if isValidId s then some (.localCache, s) else none

/-- The feature list computed by `doFeaturesTestCommand` (line 24):
`commaSeparatedFeatures.split(',')`. JavaScript `split` on a separator
always returns at least one element; splitting the empty string yields
`[""]`. -/
def doFeaturesTestFeatures (commaSeparatedFeatures : Str) : List Str :=
  List.splitOn ',' commaSeparatedFeatures

/-- The guard of the exit-1 branch of `doFeaturesTestCommand` (line 26):
`features.length === 0`. -/
def noFeaturesSpecifiedGuard (commaSeparatedFeatures : Str) : Bool :=
  (doFeaturesTestFeatures commaSeparatedFeatures).length == 0

/-- A space or tab character. -/
def isSpaceOrTab (c : Char) : Bool :=
  c = ' ' || c = '\t'

/-- Trim leading and trailing spaces and tabs. -/
def trimEdges (s : Str) : Str :=
  ((s.dropWhile isSpaceOrTab).reverse.dropWhile isSpaceOrTab).reverse

/-- The trimmed non-empty lines of a synthesized file. -/
def trimmedLines (s : Str) : List Str :=
  ((List.splitOn '\n' s).map trimEdges).filter (fun l => !l.isEmpty)

theorem mem_jsSetInsert {α : Type} [DecidableEq α] (acc : List α) (y x : α) :
    x ∈ jsSetInsert acc y ↔ x ∈ acc ∨ x = y := by
  unfold jsSetInsert
  by_cases h : y ∈ acc
  · simp only [if_pos h]
    exact ⟨Or.inl, fun o => o.elim id (fun e => e ▸ h)⟩
  · simp only [if_neg h]
    simp [List.mem_append]

theorem mem_foldl_jsSetInsert {α : Type} [DecidableEq α] :
    ∀ (xs acc : List α) (x : α), x ∈ xs.foldl jsSetInsert acc ↔ x ∈ acc ∨ x ∈ xs
  | [], acc, x => by simp
  | y :: ys, acc, x => by
    rw [List.foldl_cons, mem_foldl_jsSetInsert ys _ x, mem_jsSetInsert]
    simp [List.mem_cons, or_assoc]

theorem nodup_jsSetInsert {α : Type} [DecidableEq α] (acc : List α) (y : α)
    (h : acc.Nodup) : (jsSetInsert acc y).Nodup := by
  unfold jsSetInsert
  by_cases hy : y ∈ acc
  · simpa [hy]
  · simp [List.nodup_append, h, hy]

theorem nodup_foldl_jsSetInsert {α : Type} [DecidableEq α] :
    ∀ (xs acc : List α), acc.Nodup → (xs.foldl jsSetInsert acc).Nodup
  | [], _, h => h
  | y :: ys, acc, h => by
    rw [List.foldl_cons]
    exact nodup_foldl_jsSetInsert ys _ (nodup_jsSetInsert acc y h)

theorem mem_jsSetDedup {α : Type} [DecidableEq α] (xs : List α) (x : α) :
    x ∈ jsSetDedup xs ↔ x ∈ xs := by
  unfold jsSetDedup
  rw [mem_foldl_jsSetInsert]
  simp

theorem nodup_jsSetDedup {α : Type} [DecidableEq α] (xs : List α) :
    (jsSetDedup xs).Nodup :=
  nodup_foldl_jsSetInsert xs [] List.nodup_nil

theorem foldl_jsSetInsert_eq {α : Type} [DecidableEq α] :
    ∀ (xs acc : List α),
      xs.foldl jsSetInsert acc = acc ++ (jsSetDedup xs).filter (fun y => y ∉ acc)
  | [], acc => by simp [jsSetDedup]
  | x :: xs, acc => by
    have hnil : jsSetDedup (x :: xs) = [x] ++ (jsSetDedup xs).filter (fun y => y ∉ ([x] : List α)) := by
      show (x :: xs).foldl jsSetInsert [] = _
      rw [List.foldl_cons]
      have h0 : jsSetInsert ([] : List α) x = [x] := by simp [jsSetInsert]
      rw [h0, foldl_jsSetInsert_eq xs [x]]
    rw [List.foldl_cons, foldl_jsSetInsert_eq xs (jsSetInsert acc x), hnil]
    by_cases hx : x ∈ acc
    · have hins : jsSetInsert acc x = acc := by simp [jsSetInsert, hx]
      rw [hins, List.filter_append, List.filter_filter]
      have h1 : List.filter (fun y => y ∉ acc) [x] = [] := by simp [hx]
      rw [h1, List.nil_append]
      congr 1
      refine List.filter_congr (fun a _ => ?_)
      by_cases ha : a ∈ acc
      · by_cases hax : a = x <;> simp [ha, hax, hx]
      · have hax : a ≠ x := fun e => ha (e ▸ hx)
        simp [ha, hax]
    · have hins : jsSetInsert acc x = acc ++ [x] := by simp [jsSetInsert, hx]
      rw [hins, List.filter_append, List.filter_filter]
      have h1 : List.filter (fun y => y ∉ acc) [x] = [x] := by simp [hx]
      rw [h1, List.append_assoc]
      congr 2
      refine List.filter_congr (fun a _ => ?_)
      by_cases ha : a ∈ acc
      · have hax : a ≠ x := fun e => hx (e ▸ ha)
        simp [ha, hax]
      · by_cases hax : a = x <;> simp [ha, hax]

theorem jsSetDedup_append {α : Type} [DecidableEq α] (ps cs : List α) :
    jsSetDedup (ps ++ cs) = jsSetDedup ps ++ (jsSetDedup cs).filter (fun y => y ∉ ps) := by
  show (ps ++ cs).foldl jsSetInsert [] = _
  rw [List.foldl_append, foldl_jsSetInsert_eq cs (ps.foldl jsSetInsert [])]
  show jsSetDedup ps ++ _ = jsSetDedup ps ++ _
  congr 1
  refine List.filter_congr (fun a _ => ?_)
  have : a ∈ ps.foldl jsSetInsert [] ↔ a ∈ ps := by
    rw [mem_foldl_jsSetInsert]
    simp
  by_cases ha : a ∈ ps <;> simp [this, ha]

/-- C1: merging `a:1, list:[1,2]` into `a:2, list:[2,3]` with `list` bound
to `MERGE` and `a` defaulting to `REPLACE` does NOT return the flat document
`a:2, list:[1,2,3]` the claim states: `ApplyMergeStrategyToDocuments`
assigns to each result key the whole one-key wrapper object returned by
`ApplyMergeStrategyToObjects`, so each merged value is nested one level
deeper than claimed. -/
theorem merge_example_wraps_each_key :
    ApplyMergeStrategyToDocuments
      (fun k => if k = "list" then some .MERGE else none)
      [("a", .num 1), ("list", .arr [.num 1, .num 2])]
      [("a", .num 2), ("list", .arr [.num 2, .num 3])] =
      .ok [("a", .obj [("a", .num 2)]),
           ("list", .obj [("list", .arr [.num 1, .num 2, .num 3])])] ∧
    ApplyMergeStrategyToDocuments
      (fun k => if k = "list" then some .MERGE else none)
      [("a", .num 1), ("list", .arr [.num 1, .num 2])]
      [("a", .num 2), ("list", .arr [.num 2, .num 3])] ≠
      .ok [("a", .num 2), ("list", .arr [.num 1, .num 2, .num 3])] :=
  ⟨by decide, by decide⟩

/-- C2: under the `MERGE` behavior, two arrays merge to their deduplicated
union — the deduplicated parent elements in order followed by the new
deduplicated child elements in order, with no element twice and exactly the
elements of either input — and any other combination of value shapes
produces the merge type error and no result. -/
theorem merge_union_of_arrays_else_typeError (key : String) (p c : JSValue) :
    (∀ ps cs, p = JSValue.arr ps → c = JSValue.arr cs →
      CheckValidityAndReturnUnionArray p c =
        .ok (.arr (jsSetDedup ps ++ (jsSetDedup cs).filter (fun y => y ∉ ps))) ∧
      ApplyMergeStrategyToObjects key p c .MERGE =
        .ok (.obj [(key, .arr (jsSetDedup ps ++ (jsSetDedup cs).filter (fun y => y ∉ ps)))]) ∧
      (jsSetDedup ps ++ (jsSetDedup cs).filter (fun y => y ∉ ps)).Nodup ∧
      (∀ v, v ∈ jsSetDedup ps ++ (jsSetDedup cs).filter (fun y => y ∉ ps) ↔
        v ∈ ps ∨ v ∈ cs)) ∧
    (p.isArray = false ∨ c.isArray = false →
      CheckValidityAndReturnUnionArray p c = .error .typeError ∧
      ApplyMergeStrategyToObjects key p c .MERGE = .error .typeError) := by
  constructor
  · rintro ps cs rfl rfl
    have hu : CheckValidityAndReturnUnionArray (JSValue.arr ps) (JSValue.arr cs) =
        .ok (.arr (jsSetDedup (ps ++ cs))) := rfl
    rw [jsSetDedup_append] at hu
    refine ⟨hu, ?_, ?_, ?_⟩
    · simp only [ApplyMergeStrategyToObjects, hu, Except.map]
    · rw [List.nodup_append]
      refine ⟨nodup_jsSetDedup ps, (nodup_jsSetDedup cs).filter _, ?_⟩
      intro a ha1 ha2
      rw [mem_jsSetDedup] at ha1
      rw [List.mem_filter] at ha2
      have := ha2.2
      simp only [decide_eq_true_eq] at this
      exact this ha1
    · intro v
      simp only [List.mem_append, List.mem_filter, mem_jsSetDedup, decide_eq_true_eq]
      by_cases hv : v ∈ ps <;> simp [hv]
  · intro h
    cases p <;> cases c <;>
      simp_all [JSValue.isArray, CheckValidityAndReturnUnionArray,
        ApplyMergeStrategyToObjects, Except.map]

/-- C2 witness: the theorem applied to the arrays `[1,2]` and `[2,3]` under
key `list`, and to the non-array pair `1`, `[2]`. -/
theorem merge_union_of_arrays_else_typeError_witness :
    CheckValidityAndReturnUnionArray (.arr [.num 1, .num 2]) (.arr [.num 2, .num 3]) =
      .ok (.arr [.num 1, .num 2, .num 3]) ∧
    ApplyMergeStrategyToObjects "list" (.arr [.num 1, .num 2]) (.arr [.num 2, .num 3]) .MERGE =
      .ok (.obj [("list", .arr [.num 1, .num 2, .num 3])]) ∧
    CheckValidityAndReturnUnionArray (.num 1) (.arr [.num 2]) = .error .typeError := by
  have h1 := (merge_union_of_arrays_else_typeError "list"
    (.arr [.num 1, .num 2]) (.arr [.num 2, .num 3])).1
    [.num 1, .num 2] [.num 2, .num 3] rfl rfl
  have h2 := (merge_union_of_arrays_else_typeError "list" (.num 1) (.arr [.num 2])).2
    (Or.inl rfl)
  have he : jsSetDedup [JSValue.num 1, .num 2] ++
      (jsSetDedup [JSValue.num 2, .num 3]).filter
        (fun y => y ∉ ([JSValue.num 1, .num 2] : List JSValue)) =
      [JSValue.num 1, .num 2, .num 3] := by decide
  rw [he] at h1
  exact ⟨h1.1, h1.2.1, h2.1⟩

/-- C3: merging is NOT idempotent under the default `REPLACE` behavior:
because each result key is mapped to a one-key wrapper object, re-merging
`a` with `merge(a, b)` wraps every value one level deeper, so
`merge(a, merge(a, b)) ≠ merge(a, b)` already for `a = (x:1)`, `b = (x:2)`
and the empty behavior table. -/
theorem merge_replace_not_idempotent :
    ApplyMergeStrategyToDocuments (fun _ => none) [("x", .num 1)] [("x", .num 2)] =
      .ok [("x", .obj [("x", .num 2)])] ∧
    ApplyMergeStrategyToDocuments (fun _ => none) [("x", .num 1)]
        [("x", .obj [("x", .num 2)])] =
      .ok [("x", .obj [("x", .obj [("x", .num 2)])])] ∧
    (Except.ok [("x", JSValue.obj [("x", .obj [("x", .num 2)])])] :
        Except MergeError JSDocument) ≠
      .ok [("x", .obj [("x", .num 2)])] :=
  ⟨by decide, by decide, by decide⟩

/-- C4: a key absent from the behavior table is treated as `REPLACE`, but
under `REPLACE` a key the child document lacks is NOT removed from the
result: merging `k:1` with the empty child document keeps key `k`, mapped
to the wrapper object `k: undefined`, whereas the claim expects the key to
be absent (the empty result document). -/
theorem merge_replace_keeps_absent_child_key :
    GetBehaviorTypeOrDefault none = ExtendBehavior.REPLACE ∧
    ApplyMergeStrategyToDocuments (fun _ => none) [("k", .num 1)] [] =
      .ok [("k", .obj [("k", .undef)])] ∧
    ([("k", JSValue.obj [("k", JSValue.undef)])] : JSDocument).map Prod.fst = ["k"] ∧
    (Except.ok [("k", JSValue.obj [("k", JSValue.undef)])] :
        Except MergeError JSDocument) ≠ .ok ([] : JSDocument) :=
  ⟨rfl, by decide, by decide, by decide⟩

/-- C10: the exit-1 branch of `doFeaturesTestCommand` is unreachable:
JavaScript `split(',')` always returns at least one element (the empty
features argument yields `[""]`, of length 1), so the guard
`features.length === 0` never holds and the command never takes the
`No features specified` exit path, contrary to the claim and the spec. -/
theorem featuresTest_noFeatures_branch_unreachable :
    (∀ s : Str, noFeaturesSpecifiedGuard s = false) ∧
    doFeaturesTestFeatures ("".toList) = [[]] ∧
    noFeaturesSpecifiedGuard ("".toList) = false := by
  refine ⟨fun s => ?_, by decide, by decide⟩
  unfold noFeaturesSpecifiedGuard
  have h : doFeaturesTestFeatures s ≠ [] := by
    unfold doFeaturesTestFeatures
    simp only [List.splitOn]
    exact List.splitOnP_ne_nil _ s
  obtain ⟨a, as, he⟩ := List.exists_cons_of_ne_nil h
  rw [he]
  simp

/-- C5 counterexample: with two feature sets that each contribute one `ENV`
entry, `generateContainerEnvs` appends the per-set blocks with no separator
(`result += ...join('\n')`), so the two pairs end up glued on a single line
`ENV A=1ENV B=2` instead of two separate lines. -/
theorem generateContainerEnvs_glues_consecutive_sets :
    generateContainerEnvs false
      ⟨[⟨.localCache,
          [⟨"f1".toList, some (.str ("latest".toList)), true,
            [(("A".toList), ("1".toList))], none⟩], []⟩,
        ⟨.localCache,
          [⟨"f2".toList, some (.str ("latest".toList)), true,
            [(("B".toList), ("2".toList))], none⟩], []⟩],
       []⟩ = ("ENV A=1ENV B=2").toList ∧
    List.splitOn '\n' (generateContainerEnvs false
      ⟨[⟨.localCache,
          [⟨"f1".toList, some (.str ("latest".toList)), true,
            [(("A".toList), ("1".toList))], none⟩], []⟩,
        ⟨.localCache,
          [⟨"f2".toList, some (.str ("latest".toList)), true,
            [(("B".toList), ("2".toList))], none⟩], []⟩],
       []⟩) = [("ENV A=1ENV B=2").toList] ∧
    ([("ENV A=1ENV B=2").toList] : List Str) ≠ [("ENV A=1").toList, ("ENV B=2").toList] :=
  ⟨by decide, by decide, by decide⟩

/-- C5 amended: within one feature set every qualifying
`(feature, containerEnv entry)` pair yields exactly one `ENV K=V` line —
for a single-set configuration, splitting the output on newlines recovers
exactly the per-pair entries, in order — but the blocks of consecutive
feature sets are concatenated with no separator in between. -/
theorem generateContainerEnvs_one_line_per_pair_single_set (incAll : Bool)
    (fSet : FeatureSet) (d : Str)
    (h1 : envLinesOfSet incAll fSet ≠ [])
    (h2 : ∀ l ∈ envLinesOfSet incAll fSet, '\n' ∉ l) :
    List.splitOn '\n' (generateContainerEnvs incAll ⟨[fSet], d⟩) =
      (fSet.features.filter (includedWithValue incAll)).flatMap
        (fun f => f.containerEnv.map containerEnvLine) ∧
    (∀ s1 s2 d2, generateContainerEnvs incAll ⟨[s1, s2], d2⟩ =
      List.intercalate ("\n".toList) (envLinesOfSet incAll s1) ++
        List.intercalate ("\n".toList) (envLinesOfSet incAll s2)) := by
  constructor
  · have hg : generateContainerEnvs incAll ⟨[fSet], d⟩ =
        List.intercalate ("\n".toList) (envLinesOfSet incAll fSet) := by
      simp [generateContainerEnvs]
    rw [hg]
    exact List.splitOn_intercalate (envLinesOfSet incAll fSet) '\n' h2 h1
  · intro s1 s2 d2
    simp [generateContainerEnvs]

/-- C5 amended witness: the single-set part applied to one feature with two
`containerEnv` entries. -/
theorem generateContainerEnvs_one_line_per_pair_witness :
    List.splitOn '\n' (generateContainerEnvs false
      ⟨[⟨.localCache,
          [⟨"f1".toList, some (.str ("latest".toList)), true,
            [(("A".toList), ("1".toList)), (("B".toList), ("2".toList))], none⟩], []⟩],
        []⟩) = [("ENV A=1").toList, ("ENV B=2").toList] := by
  have h := (generateContainerEnvs_one_line_per_pair_single_set false
    ⟨.localCache,
      [⟨"f1".toList, some (.str ("latest".toList)), true,
        [(("A".toList), ("1".toList)), (("B".toList), ("2".toList))], none⟩], []⟩
    [] (by decide) (by decide)).1
  exact h

/-- C7: for a feature with a non-empty value object,
`getFeatureEnvVariables` returns one quoted
`_BUILD_ARG_<SAFE_ID>_<OPT>="<value>"` entry per option (option name
upper-cased), followed by the presence flag `_BUILD_ARG_<SAFE_ID>=true`,
followed by `<buildArg>=<mainValue>` iff a legacy `buildArg` is declared;
and `SAFE_ID` is the feature id with `/` and `-` replaced by `_`, then
upper-cased. -/
theorem getFeatureEnvVariables_shape (f : Feature) (values : List (Str × Str))
    (hv : getFeatureValueObject f = some values) (_hne : values ≠ []) :
    getFeatureEnvVariables f =
      (values.map (fun kv =>
        "_BUILD_ARG_".toList ++ getFeatureSafeId f ++ "_".toList ++ kv.1.map Char.toUpper ++
          "=\"".toList ++ kv.2 ++ "\"".toList)) ++
      ["_BUILD_ARG_".toList ++ getFeatureSafeId f ++ "=true".toList] ++
      (match f.buildArg with
       | some b => [b ++ "=".toList ++ getFeatureMainValue f]
       | none => []) ∧
    getFeatureSafeId f =
      (f.id.map (fun c => if c = '/' || c = '-' then '_' else c)).map Char.toUpper := by
  refine ⟨?_, rfl⟩
  unfold getFeatureEnvVariables
  rw [hv]
  cases hb : f.buildArg <;> simp [hb, List.append_assoc]

/-- C7 witness: the theorem applied to a feature with id `git-lfs`, one
option and a legacy build argument. -/
theorem getFeatureEnvVariables_shape_witness :
    getFeatureEnvVariables
      ⟨"git-lfs".toList, some (.obj [(("version".toList), ("latest".toList))]), true, [],
        some ("GITLFS_VERSION".toList)⟩ =
      [("_BUILD_ARG_GIT_LFS_VERSION=\"latest\"").toList,
       ("_BUILD_ARG_GIT_LFS=true").toList,
       ("GITLFS_VERSION=true").toList] := by
  have h := (getFeatureEnvVariables_shape
    ⟨"git-lfs".toList, some (.obj [(("version".toList), ("latest".toList))]), true, [],
      some ("GITLFS_VERSION".toList)⟩
    [(("version".toList), ("latest".toList))] rfl (by decide)).1
  rw [h]
  decide

theorem count_eq_one_of_mem_nodup {g : Type} [BEq g] [LawfulBEq g] :
    ∀ {l : List g} {a : g}, l.Nodup → a ∈ l → l.count a = 1 := by
  intro l
  induction l with
  | nil => intro a _ hm; simp at hm
  | cons b bs ih =>
    intro a hd hm
    rw [List.count_cons]
    rcases List.mem_cons.mp hm with rfl | hmem
    · have hnot : a ∉ bs := (List.nodup_cons.mp hd).1
      have hz : bs.count a = 0 := by
        rw [List.count_eq_zero]
        exact hnot
      simp [hz]
    · have hne : a ≠ b := by
        rintro rfl
        exact (List.nodup_cons.mp hd).1 hmem
      have h1 : bs.count a = 1 := ih (List.nodup_cons.mp hd).2 hmem
      have hne2 : ¬b = a := fun e => hne (Eq.symm e)
      simp [h1, hne2]

/-- C6: the build-stage stanzas and the copy stanzas are in one-to-one
correspondence with the qualifying features (included or product-forced,
truthy value, acquire script): the two stanza lists are the images of the
qualifying triples, every qualifying feature occurrence has exactly one
`(stage name) = <source-info-string>_<id>` entry (assuming the stage names
are pairwise distinct), each copy stanza carries the configure `RUN` step
iff the feature has a configure script, and a feature occurrence qualifies
iff it passes the acquire filter in its set — features without an acquire
script are in neither list. -/
theorem acquire_features_one_stage_one_copy (incAll : Bool) (cfg : FeaturesConfig)
    (scripts : List ScriptsMap) (root : Str)
    (_hlen : cfg.featureSets.length = scripts.length)
    (hnodup : ((acquirePairs incAll cfg scripts).map (fun q => (q.1, q.2.1.id))).Nodup) :
    getFeatureBuildStagesList incAll cfg scripts root =
      (acquirePairs incAll cfg scripts).map (fun q => buildStageStanza root q.1 q.2.1.id) ∧
    getCopyFeatureBuildStagesList incAll cfg scripts =
      (acquirePairs incAll cfg scripts).map (fun q =>
        copyStanzaBase q.1 q.2.1.id ++
          (if q.2.2 then configureRunStanza q.1 q.2.1.id else [])) ∧
    (∀ q ∈ acquirePairs incAll cfg scripts,
      ((acquirePairs incAll cfg scripts).map (fun q2 => (q2.1, q2.2.1.id))).count
        (q.1, q.2.1.id) = 1) ∧
    (∀ s f hc, (s, f, hc) ∈ acquirePairs incAll cfg scripts ↔
      ∃ p ∈ cfg.featureSets.zip scripts,
        getSourceInfoString p.1.sourceInformation = s ∧ f ∈ p.1.features ∧
        acquireFilter incAll p.2 f = true ∧ hc = hasConfigureScript p.2 f.id) := by
  refine ⟨?_, ?_, ?_, ?_⟩
  · unfold getFeatureBuildStagesList acquirePairs
    simp only [List.map_flatMap, List.map_map]
    rfl
  · unfold getCopyFeatureBuildStagesList acquirePairs
    simp only [List.map_flatMap, List.map_map]
    rfl
  · intro q hq
    exact count_eq_one_of_mem_nodup hnodup (List.mem_map_of_mem _ hq)
  · intro s f hc
    unfold acquirePairs
    simp only [List.mem_flatMap, List.mem_map, List.mem_filter, Prod.mk.injEq]
    constructor
    · rintro ⟨p, hp, f2, ⟨hm, hq⟩, hs, rfl, rfl⟩
      exact ⟨p, hp, hs, hm, hq, rfl⟩
    · rintro ⟨p, hp, hs, hm, hq, rfl⟩
      exact ⟨p, hp, f, ⟨hm, hq⟩, hs, rfl, rfl⟩

set_option maxRecDepth 8192 in
/-- C6 witness: the theorem applied to one feature set with one qualifying
feature `go` that has both an acquire and a configure script. -/
theorem acquire_features_one_stage_one_copy_witness :
    getFeatureBuildStagesList false
      ⟨[⟨.localCache, [⟨"go".toList, some (.str ("latest".toList)), true, [], none⟩], []⟩], []⟩
      [[(("go".toList), ⟨true, true⟩)]] (".".toList) =
      [buildStageStanza (".".toList) ("local-cache".toList) ("go".toList)] ∧
    getCopyFeatureBuildStagesList false
      ⟨[⟨.localCache, [⟨"go".toList, some (.str ("latest".toList)), true, [], none⟩], []⟩], []⟩
      [[(("go".toList), ⟨true, true⟩)]] =
      [copyStanzaBase ("local-cache".toList) ("go".toList) ++
        configureRunStanza ("local-cache".toList) ("go".toList)] ∧
    (("local-cache".toList, ⟨"go".toList, some (.str ("latest".toList)), true, [], none⟩, true) ∈
      acquirePairs false
        ⟨[⟨.localCache, [⟨"go".toList, some (.str ("latest".toList)), true, [], none⟩], []⟩], []⟩
        [[(("go".toList), ⟨true, true⟩)]]) := by
  have h := acquire_features_one_stage_one_copy false
    ⟨[⟨.localCache, [⟨"go".toList, some (.str ("latest".toList)), true, [], none⟩], []⟩], []⟩
    [[(("go".toList), ⟨true, true⟩)]] (".".toList) (by decide) (by decide)
  refine ⟨h.1, ?_, by decide⟩
  have h2 := h.2.1
  rw [h2]
  decide

/-- C8: in BuildKit mode the only builder invocation starts with
`buildx build --load` immediately followed by
`--build-context dev_containers_feature_content_source=<dstFolder>`; in
legacy mode the content image (named `dev_container_feature_content_temp`,
built from the synthesized `FROM scratch` / `COPY . /tmp/build-features/`
Dockerfile with `<dstFolder>` as context) is built first and the main
invocation starts with plain `build`; in both modes the main build's
context argument (the trailing argv element) is the dedicated
`<tmpdir>/__dev-containers-build-empty` directory, and every file the
synthesis writes lives strictly under `dstFolder`, never under that
context directory. -/
theorem extendImage_builder_argv
    (dstFolder baseName imageUser folderImageName imageName tmpdir : Str)
    (useBuildKit incAll : Bool) (cfg : FeaturesConfig) (scripts : List ScriptsMap) :
    builderInvocations true dstFolder baseName imageUser folderImageName imageName tmpdir =
      [extendImageArgs true dstFolder baseName imageUser folderImageName imageName tmpdir] ∧
    (extendImageArgs true dstFolder baseName imageUser folderImageName imageName tmpdir).take 5 =
      ["buildx".toList, "build".toList, "--load".toList, "--build-context".toList,
       "dev_containers_feature_content_source=".toList ++ dstFolder] ∧
    builderInvocations false dstFolder baseName imageUser folderImageName imageName tmpdir =
      [buildContentArgs dstFolder,
       extendImageArgs false dstFolder baseName imageUser folderImageName imageName tmpdir] ∧
    (extendImageArgs false dstFolder baseName imageUser folderImageName imageName tmpdir).take 1 =
      ["build".toList] ∧
    (buildContentArgs dstFolder).take 4 =
      ["build".toList, "-t".toList, "dev_container_feature_content_temp".toList,
       "-f".toList] ∧
    (buildContentArgs dstFolder).getLast? = some dstFolder ∧
    trimmedLines buildContentDockerfile =
      ["FROM scratch".toList, "COPY . /tmp/build-features/".toList] ∧
    (extendImageArgs false dstFolder baseName imageUser folderImageName imageName
      tmpdir).getLast? = some (emptyTempDir tmpdir) ∧
    (extendImageArgs true dstFolder baseName imageUser folderImageName imageName
      tmpdir).getLast? = some (emptyTempDir tmpdir) ∧
    emptyTempDir tmpdir = posixJoin [tmpdir, "__dev-containers-build-empty".toList] ∧
    (∀ path ∈ writtenFilePaths useBuildKit incAll cfg scripts,
      ∃ suffix, suffix ≠ [] ∧ path = posixJoin (cfg.dstFolder :: suffix)) := by
  refine ⟨rfl, rfl, rfl, rfl, rfl, rfl, by decide, rfl, rfl, rfl, ?_⟩
  intro path hpath
  unfold writtenFilePaths at hpath
  rcases List.mem_append.mp hpath with hAB | hC
  · rcases List.mem_append.mp hAB with hA | hB
    · rcases List.mem_singleton.mp hA with rfl
      exact ⟨["Dockerfile.extended".toList], by simp, rfl⟩
    · rcases List.mem_flatMap.mp hB with ⟨p, hp, hmem⟩
      rcases List.mem_cons.mp hmem with rfl | hf
      · exact ⟨[getSourceInfoString p.1.sourceInformation,
          "devcontainer-features.env".toList], by simp, rfl⟩
      · rcases List.mem_map.mp hf with ⟨f, hfm, rfl⟩
        exact ⟨[getSourceInfoString p.1.sourceInformation, "features".toList, f.id,
          "devcontainer-features.env".toList], by simp, rfl⟩
  · cases useBuildKit
    · rcases List.mem_singleton.mp (by simpa using hC) with rfl
      exact ⟨["Dockerfile.buildContent".toList], by simp, rfl⟩
    · simp at hC

theorem validIdChar_of_isValidId (s : Str) (h : isValidId s = true) :
    ∀ c ∈ s, validIdChar c = true := by
  cases s with
  | nil => nomatch h
  | cons c cs =>
    have h2 : validIdFirstChar c = true ∧ cs.all validIdChar = true := by
      simpa [isValidId, Bool.and_eq_true] using h
    intro d hd
    rcases List.mem_cons.mp hd with rfl | hdm
    · unfold validIdChar
      rw [h2.1]
      rfl
    · exact List.all_eq_true.mp h2.2 d hdm

theorem validIdChar_excludes (c : Char) (h : validIdChar c = true) :
    c ≠ ':' ∧ c ≠ '/' ∧ c ≠ '@' ∧ c ≠ '.' := by
  refine ⟨?_, ?_, ?_, ?_⟩ <;> rintro rfl <;> exact absurd h (by decide)

theorem validIdFirstChar_excludes (c : Char) (h : validIdFirstChar c = true) :
    c ≠ ':' ∧ c ≠ '/' ∧ c ≠ '@' ∧ c ≠ '.' := by
  refine ⟨?_, ?_, ?_, ?_⟩ <;> rintro rfl <;> exact absurd h (by decide)

theorem containsSub_url_false (s : Str) (h : ∀ c ∈ s, c ≠ ':') :
    containsSub ("://".toList) s = false := by
  unfold containsSub
  rw [List.any_eq_false]
  intro t ht
  have hsuffix : t <:+ s := (List.mem_tails t s).mp ht
  cases t with
  | nil => decide
  | cons c cs =>
    have hc : c ∈ s := hsuffix.sublist.subset (List.mem_cons_self c cs)
    have hne : (':' == c) = false :=
      beq_eq_false_iff_ne.mpr (fun e => h c hc (Eq.symm e))
    simp [List.isPrefixOf, hne]

theorem isPrefixOf_false_head (p : Char) (ps s : Str) (c : Char)
    (hs : s.head? = some c) (h : p ≠ c) : ((p :: ps).isPrefixOf s) = false := by
  cases s with
  | nil => nomatch hs
  | cons d ds =>
    have hd : d = c := by
      injection hs
    subst hd
    simp [List.isPrefixOf, beq_eq_false_iff_ne.mpr h]

theorem splitOn_three_segments (o r i : Str)
    (ho : ∀ c ∈ o, c ≠ '/') (hr : ∀ c ∈ r, c ≠ '/') (hi : ∀ c ∈ i, c ≠ '/') :
    List.splitOn '/' (o ++ '/' :: (r ++ '/' :: i)) = [o, r, i] := by
  simp only [List.splitOn]
  rw [List.splitOnP_first _ _
    (fun c hc => by simp only [beq_iff_eq]; exact ho c hc) '/' (by simp) (r ++ '/' :: i)]
  rw [List.splitOnP_first _ _
    (fun c hc => by simp only [beq_iff_eq]; exact hr c hc) '/' (by simp) i]
  rw [List.splitOnP_eq_single _ _ (fun c hc => by simp only [beq_iff_eq]; exact hi c hc)]

theorem breakAtFirst_of_no_sep (s : Str) (h : ∀ c ∈ s, c ≠ '@') :
    breakAtFirst '@' s = (s, none) := by
  unfold breakAtFirst
  have h1 : List.splitOn '@' s = [s] := by
    simp only [List.splitOn]
    exact List.splitOnP_eq_single _ _ (fun c hc => by simp only [beq_iff_eq]; exact h c hc)
  rw [h1]

theorem breakAtFirst_append_sep (pre t : Str) (hp : ∀ c ∈ pre, c ≠ '@') :
    breakAtFirst '@' (pre ++ '@' :: t) = (pre, some t) := by
  unfold breakAtFirst
  have h1 : List.splitOn '@' (pre ++ '@' :: t) = pre :: List.splitOn '@' t := by
    simp only [List.splitOn]
    exact List.splitOnP_first _ _
      (fun c hc => by simp only [beq_iff_eq]; exact hp c hc) '@' (by simp) t
  rw [h1]
  obtain ⟨x, xs, hx⟩ := List.exists_cons_of_ne_nil
    (show List.splitOn '@' t ≠ [] by
      simp only [List.splitOn]
      exact List.splitOnP_ne_nil _ t)
  rw [hx]
  have h2 : List.intercalate ['@'] (x :: xs) = t := by
    rw [← hx]
    exact List.intercalate_splitOn t '@'
  show (pre, some (List.intercalate ['@'] (x :: xs))) = (pre, some t)
  rw [h2]

theorem no_at_in_segments (o r i : Str)
    (ho : isValidId o = true) (hr : isValidId r = true) (hf : isValidId i = true) :
    ∀ c ∈ o ++ '/' :: (r ++ '/' :: i), c ≠ '@' := by
  intro c hc
  simp only [List.mem_append, List.mem_cons] at hc
  rcases hc with h1 | rfl | h1 | rfl | h1
  · exact (validIdChar_excludes c (validIdChar_of_isValidId o ho c h1)).2.2.1
  · decide
  · exact (validIdChar_excludes c (validIdChar_of_isValidId r hr c h1)).2.2.1
  · decide
  · exact (validIdChar_excludes c (validIdChar_of_isValidId i hf c h1)).2.2.1

theorem parseGitHubRepo_with_tag (o r i t : Str)
    (ho : isValidId o = true) (hr : isValidId r = true) (hf : isValidId i = true) :
    parseGitHubRepo ((o ++ '/' :: (r ++ '/' :: i)) ++ '@' :: t) =
      some (.githubRepo o r (some t) false (githubApiUri o r (some t))
        (githubUnauthenticatedUri o r (some t)), i) := by
  simp only [parseGitHubRepo]
  rw [breakAtFirst_append_sep _ t (no_at_in_segments o r i ho hr hf)]
  dsimp only
  rw [splitOn_three_segments o r i
    (fun c hc => (validIdChar_excludes c (validIdChar_of_isValidId o ho c hc)).2.1)
    (fun c hc => (validIdChar_excludes c (validIdChar_of_isValidId r hr c hc)).2.1)
    (fun c hc => (validIdChar_excludes c (validIdChar_of_isValidId i hf c hc)).2.1)]
  dsimp only
  rw [hf]
  rfl

theorem parseGitHubRepo_no_tag (o r i : Str)
    (ho : isValidId o = true) (hr : isValidId r = true) (hf : isValidId i = true) :
    parseGitHubRepo (o ++ '/' :: (r ++ '/' :: i)) =
      some (.githubRepo o r none true (githubApiUri o r none)
        (githubUnauthenticatedUri o r none), i) := by
  simp only [parseGitHubRepo]
  rw [breakAtFirst_of_no_sep _ (no_at_in_segments o r i ho hr hf)]
  dsimp only
  rw [splitOn_three_segments o r i
    (fun c hc => (validIdChar_excludes c (validIdChar_of_isValidId o ho c hc)).2.1)
    (fun c hc => (validIdChar_excludes c (validIdChar_of_isValidId r hr c hc)).2.1)
    (fun c hc => (validIdChar_excludes c (validIdChar_of_isValidId i hf c hc)).2.1)]
  dsimp only
  rw [hf]
  rfl

theorem no_colon_in_segments (o r i : Str)
    (ho : isValidId o = true) (hr : isValidId r = true) (hf : isValidId i = true) :
    ∀ c ∈ o ++ '/' :: (r ++ '/' :: i), c ≠ ':' := by
  intro c hc
  simp only [List.mem_append, List.mem_cons] at hc
  rcases hc with h1 | rfl | h1 | rfl | h1
  · exact (validIdChar_excludes c (validIdChar_of_isValidId o ho c h1)).1
  · decide
  · exact (validIdChar_excludes c (validIdChar_of_isValidId r hr c h1)).1
  · decide
  · exact (validIdChar_excludes c (validIdChar_of_isValidId i hf c h1)).1

theorem parseFeatureIdentifier_dispatch (s : Str) (c : Char) (hhead : s.head? = some c)
    (hc : validIdFirstChar c = true) (hcolon : ∀ ch ∈ s, ch ≠ ':') :
    parseFeatureIdentifier s =
      (match parseGitHubRepo s with
       | some res => some res
       | none => if isValidId s then some (.localCache, s) else none) := by
  unfold parseFeatureIdentifier
  rw [containsSub_url_false s hcolon]
  have h2 : (("./".toList).isPrefixOf s) = false :=
    isPrefixOf_false_head '.' ("/".toList) s c hhead
      (fun e => (validIdFirstChar_excludes c hc).2.2.2 (Eq.symm e))
  have h3 : (("../".toList).isPrefixOf s) = false :=
    isPrefixOf_false_head '.' ("./".toList) s c hhead
      (fun e => (validIdFirstChar_excludes c hc).2.2.2 (Eq.symm e))
  have h4 : (s.head? == some '/') = false := by
    rw [hhead]
    exact beq_eq_false_iff_ne.mpr
      (fun e => (validIdFirstChar_excludes c hc).2.1 (Option.some.inj e))
  rw [h2, h3, h4]
  simp

/-- C9: the three-segment identifier `<owner>/<repo>/<id>@<tag>` parses to a
github-repo source with that owner, repo and tag, `isLatest = false`, the
release-API URI ending in `/releases/tags/<tag>` and the unauthenticated
URI ending in `/releases/download/<tag>/devcontainer-features.tgz`; the
same form without `@<tag>` yields `isLatest = true` with the
`/releases/latest` and `/releases/latest/download/devcontainer-features.tgz`
URIs. -/
theorem parseFeatureIdentifier_github_form (owner repo fid tag : Str)
    (ho : isValidId owner = true) (hr : isValidId repo = true)
    (hf : isValidId fid = true) (ht : ∀ c ∈ tag, c ≠ ':') :
    parseFeatureIdentifier ((owner ++ '/' :: (repo ++ '/' :: fid)) ++ '@' :: tag) =
      some (.githubRepo owner repo (some tag) false (githubApiUri owner repo (some tag))
        (githubUnauthenticatedUri owner repo (some tag)), fid) ∧
    parseFeatureIdentifier (owner ++ '/' :: (repo ++ '/' :: fid)) =
      some (.githubRepo owner repo none true (githubApiUri owner repo none)
        (githubUnauthenticatedUri owner repo none), fid) ∧
    ("/releases/tags/".toList ++ tag) <:+ githubApiUri owner repo (some tag) ∧
    ("/releases/download/".toList ++ tag ++ "/devcontainer-features.tgz".toList) <:+
      githubUnauthenticatedUri owner repo (some tag) ∧
    ("/releases/latest".toList) <:+ githubApiUri owner repo none ∧
    ("/releases/latest/download/devcontainer-features.tgz".toList) <:+
      githubUnauthenticatedUri owner repo none := by
  obtain ⟨c, os, hoeq⟩ : ∃ c os, owner = c :: os := by
    cases owner with
    | nil => nomatch ho
    | cons c os => exact ⟨c, os, rfl⟩
  have hc : validIdFirstChar c = true := by
    rw [hoeq] at ho
    simp only [isValidId, Bool.and_eq_true] at ho
    exact ho.1
  have hcolonPre : ∀ ch ∈ owner ++ '/' :: (repo ++ '/' :: fid), ch ≠ ':' :=
    no_colon_in_segments owner repo fid ho hr hf
  have hcolon1 : ∀ ch ∈ (owner ++ '/' :: (repo ++ '/' :: fid)) ++ '@' :: tag, ch ≠ ':' := by
    intro ch hch
    rcases List.mem_append.mp hch with h1 | h1
    · exact hcolonPre ch h1
    · rcases List.mem_cons.mp h1 with rfl | h2
      · decide
      · exact ht ch h2
  have hhead1 : ((owner ++ '/' :: (repo ++ '/' :: fid)) ++ '@' :: tag).head? = some c := by
    rw [hoeq]
    simp
  have hhead2 : (owner ++ '/' :: (repo ++ '/' :: fid)).head? = some c := by
    rw [hoeq]
    simp
  refine ⟨?_, ?_, ?_, ?_, ?_, ?_⟩
  · rw [parseFeatureIdentifier_dispatch _ c hhead1 hc hcolon1,
      parseGitHubRepo_with_tag owner repo fid tag ho hr hf]
  · rw [parseFeatureIdentifier_dispatch _ c hhead2 hc hcolonPre,
      parseGitHubRepo_no_tag owner repo fid ho hr hf]
  · unfold githubApiUri
    dsimp only
    exact List.suffix_append _ _
  · unfold githubUnauthenticatedUri
    dsimp only
    exact List.suffix_append _ _
  · unfold githubApiUri
    dsimp only
    exact List.suffix_append _ _
  · unfold githubUnauthenticatedUri
    dsimp only
    exact List.suffix_append _ _

set_option maxRecDepth 8192 in
/-- C9 witness: the theorem applied to `octocat/myfeatures/helloworld`,
with and without the tag `v0.0.4`. -/
theorem parseFeatureIdentifier_github_form_witness :
    parseFeatureIdentifier
      (("octocat".toList ++ '/' :: ("myfeatures".toList ++ '/' :: "helloworld".toList)) ++
        '@' :: "v0.0.4".toList) =
      some (.githubRepo ("octocat".toList) ("myfeatures".toList) (some ("v0.0.4".toList)) false
        ("https://api.github.com/repos/octocat/myfeatures/releases/tags/v0.0.4".toList)
        ("https://github.com/octocat/myfeatures/releases/download/v0.0.4/devcontainer-features.tgz".toList),
        "helloworld".toList) ∧
    parseFeatureIdentifier
      ("octocat".toList ++ '/' :: ("myfeatures".toList ++ '/' :: "helloworld".toList)) =
      some (.githubRepo ("octocat".toList) ("myfeatures".toList) none true
        ("https://api.github.com/repos/octocat/myfeatures/releases/latest".toList)
        ("https://github.com/octocat/myfeatures/releases/latest/download/devcontainer-features.tgz".toList),
        "helloworld".toList) := by
  have h := parseFeatureIdentifier_github_form
    ("octocat".toList) ("myfeatures".toList) ("helloworld".toList) ("v0.0.4".toList)
    (by decide) (by decide) (by decide) (by decide)
  refine ⟨?_, ?_⟩
  · rw [h.1]
    decide
  · rw [h.2.1]
    decide
